import Mathlib

/-!
Verification of the wix-util repository (src/UI/fields.js and src/UI/updates.js),
a glue layer that formats numeric values (currency, percent) for Wix text-input
elements bound to Wix datasets, and writes parsed edits back into the dataset.

Modelling conventions:
* JavaScript numbers produced and consumed by this code are exact decimal
  values; we embed them as the structure `JSNumber` with value `num / 10 ^ exp`.
  All operations of the source (parsing, dividing by 100, rendering with a
  fixed number of fraction digits) are exact on decimals, so no floating-point
  rounding is modelled.
* JavaScript runtime errors (TypeError from dereferencing undefined or from
  calling .replace on a non-string) are modelled with `Except JSError`.
* The Wix host collaborators ($w element lookup, dataset getCurrentItem /
  setFieldValue / refresh) are modelled as explicit state: `SysState` holds the
  record sources, the UI element values, and the FieldsHandler.PAGE_FIELDS
  static registry.
-/

namespace WixUtil

/-- Exact decimal model of a JavaScript number: the value `num / 10 ^ exp`.
The representation is not unique; `JSNumber.sameValue` is numeric equality,
which is what the JavaScript == operator denotes on numbers. -/
structure JSNumber where
  num : ℤ
  exp : ℕ
deriving DecidableEq

/-- Numeric (JavaScript ==) equality of two decimal values. -/
def JSNumber.sameValue (a b : JSNumber) : Prop :=
  a.num * 10 ^ b.exp = b.num * 10 ^ a.exp

instance (a b : JSNumber) : Decidable (a.sameValue b) := by
  unfold JSNumber.sameValue; infer_instance

/-- Rational value denoted by a `JSNumber`, used in proofs only. -/
def JSNumber.toRat (a : JSNumber) : ℚ := (a.num : ℚ) / 10 ^ a.exp

/-- Integer n as a JSNumber. -/
def JSNumber.ofInt (n : ℤ) : JSNumber := ⟨n, 0⟩

/- Digit string machinery (kernel-evaluable, structural recursion on fuel). -/

/-- Little-endian base-10 digits of n; the first argument is fuel. -/
def natDigitsAux : ℕ → ℕ → List ℕ
  | 0, _ => []
  | _ + 1, 0 => []
  | fuel + 1, n + 1 => (n + 1) % 10 :: natDigitsAux fuel ((n + 1) / 10)

/-- Little-endian base-10 digits of n ([] for 0). -/
def natDigitsLE (n : ℕ) : List ℕ := natDigitsAux n n

/-- Character for a decimal digit. -/
def digitChr (d : ℕ) : Char := Char.ofNat (48 + d)

/-- Most-significant-first digit characters of n, [] for 0. -/
def natChars (n : ℕ) : List Char := ((natDigitsLE n).map digitChr).reverse

/-- Decimal digit characters of n, with "0" for 0 (JavaScript integer rendering). -/
def renderNat (n : ℕ) : List Char := if n = 0 then ['0'] else natChars n

/-- Numeric value of a digit character. -/
def digitVal (c : Char) : ℕ := c.toNat - 48

/-- Value of a most-significant-first digit-character string
(the way JavaScript Number reads a plain digit sequence). -/
def dtn (l : List Char) : ℕ := l.foldl (fun a c => 10 * a + digitVal c) 0

/- The readNumber helper of src/UI/fields.js:

    function readNumber(value) {
        const num = Number(value.replace(/[^0-9.-]+/g,""));
        return isNaN(num) ? null : num;
    }
-/

/-- Characters kept by the regex replace /[^0-9.-]+/g -> "". -/
def keepChar (c : Char) : Bool := c.isDigit || c == '.' || c == '-'

/-- value.replace(/[^0-9.-]+/g, "") on the character list of the string. -/
def stripNonNumeric (l : List Char) : List Char := l.filter keepChar

/-- JavaScript Number() on an unsigned string over the alphabet 0-9 . -
(StrUnsignedDecimalLiteral without exponent, which cannot appear after the
strip): digits, digits.digits, .digits or digits. ; anything else is NaN
(returned as none). -/
def parseUnsigned (l : List Char) : Option JSNumber :=
  match l.span (fun c => c ≠ '.') with
  | (ip, []) =>
      if ip ≠ [] ∧ ip.all Char.isDigit then some ⟨dtn ip, 0⟩ else none
  | (ip, _ :: fp) =>
      if (ip ≠ [] ∨ fp ≠ []) ∧ ip.all Char.isDigit ∧ fp.all Char.isDigit then
        some ⟨dtn ip * 10 ^ fp.length + dtn fp, fp.length⟩
      else none

/-- JavaScript Number() on a string over the alphabet 0-9 . - :
the empty string is 0, an optional leading minus sign negates,
NaN is modelled as none. -/
def jsNumber (l : List Char) : Option JSNumber :=
  match l with
  | [] => some ⟨0, 0⟩
  | '-' :: rest => (parseUnsigned rest).map (fun d => ⟨-d.num, d.exp⟩)
  | _ => parseUnsigned l

/-- readNumber from src/UI/fields.js: strip every character other than
digits, dot and minus, parse with Number, return null (none) exactly when
the parse is NaN. -/
def readNumber (value : String) : Option JSNumber :=
  jsNumber (stripNonNumeric value.toList)

/- Model of Intl.NumberFormat for locale en-AU, styles currency (AUD) and
percent, with minimumFractionDigits / maximumFractionDigits. en-AU renders
currency as $ followed by comma-grouped digits ("$1,234.50") and percent as
comma-grouped digits followed by % ("12.3%"); a negative value gets a
leading minus sign. -/

/-- Insert a comma after every three characters of a little-endian digit
list (thousands grouping, en-AU). -/
def group3 : List Char → List Char
  | a :: b :: c :: d :: rest => a :: b :: c :: ',' :: group3 (d :: rest)
  | l => l

/-- Comma-grouped decimal digit characters of n ("0" for 0). -/
def renderGrouped (n : ℕ) : List Char :=
  if n = 0 then ['0'] else (group3 ((natDigitsLE n).map digitChr)).reverse

/-- Render the magnitude of a decimal value with grouped integer digits and
between minDP and maxDP fraction digits: round half-away-from-zero to maxDP
digits, then drop trailing zero digits down to minDP digits
(Intl.NumberFormat default rounding and fraction-digit behaviour).
The rounded scaled magnitude floor(|x| * 10 ^ maxDP + 1 / 2) is computed as
(2 * |num| * 10 ^ maxDP + 10 ^ exp) / (2 * 10 ^ exp) in integers. -/
def renderFixed (x : JSNumber) (minDP maxDP : ℕ) : List Char :=
  let scaled := (2 * x.num.natAbs * 10 ^ maxDP + 10 ^ x.exp) / (2 * 10 ^ x.exp)
  let ip := scaled / 10 ^ maxDP
  let fp := scaled % 10 ^ maxDP
  let fpAll := List.replicate (maxDP - (natDigitsLE fp).length) '0' ++ natChars fp
  let tz := (fpAll.reverse.takeWhile (fun c => c == '0')).length
  let fracChars := fpAll.take (max minDP (maxDP - tz))
  renderGrouped ip ++ (if fracChars.isEmpty then [] else '.' :: fracChars)

/-- new Intl.NumberFormat('en-AU', { style: 'currency', currency: 'AUD', ... }).format. -/
def currencyFormatter (minDP maxDP : ℕ) (x : JSNumber) : String :=
  ⟨(if x.num < 0 then ['-'] else []) ++ '$' :: renderFixed x minDP maxDP⟩

/-- Multiplication of a decimal value by 100 (performed internally by the
percent style of Intl.NumberFormat before rendering). -/
def mul100 (x : JSNumber) : JSNumber :=
  if 2 ≤ x.exp then ⟨x.num, x.exp - 2⟩ else ⟨x.num * 10 ^ (2 - x.exp), 0⟩

/-- Division of a decimal value by 100 (the value / 100 in PercentField.format). -/
def div100 (x : JSNumber) : JSNumber := ⟨x.num, x.exp + 2⟩

/-- new Intl.NumberFormat('en-AU', { style: 'percent', ... }).format:
render x * 100 and append the percent sign. -/
def percentFormatter (minDP maxDP : ℕ) (x : JSNumber) : String :=
  ⟨(if x.num < 0 then ['-'] else []) ++ renderFixed (mul100 x) minDP maxDP ++ ['%']⟩

/- JavaScript values flowing through the bindings. `JSVal` is the value of a
UI element (element.value); `StoredVal` is the value of a dataset record
field, which in this code is a number, null, or absent (undefined) - record
fields never hold strings here because the edit path always writes the
result of readNumber. -/

/-- Value of a UI element or of a generic JavaScript variable. -/
inductive JSVal
  | undef
  | jnull
  | num (value : JSNumber)
  | str (s : String)
deriving DecidableEq

/-- Value of a dataset record field. -/
inductive StoredVal
  | undef
  | jnull
  | num (value : JSNumber)
deriving DecidableEq

/-- The value the edit path stores: readNumber's null becomes JS null. -/
def StoredVal.ofRead : Option JSNumber → StoredVal
  | none => .jnull
  | some d => .num d

/- The classes of src/UI/fields.js. -/

/-- The base Field class: id (dataset field id), interfaceId (html element
id), type tag; its read and format return the value unchanged. -/
structure Field where
  id : String
  interfaceId : String
  type : String
deriving DecidableEq

/-- Field.read of the base class: return value. -/
def Field.read (_f : Field) (value : JSVal) : JSVal := value

/-- Field.format of the base class: return value. -/
def Field.format (_f : Field) (value : JSVal) : JSVal := value

/-- CurrencyField: constructor(id, interfaceId, minDP=2, maxDP=2) with an
en-AU AUD currency Intl.NumberFormat. -/
structure CurrencyField where
  id : String
  interfaceId : String
  minDP : ℕ
  maxDP : ℕ
deriving DecidableEq

/-- CurrencyField.read: readNumber(value). -/
def CurrencyField.read (_f : CurrencyField) (value : String) : Option JSNumber :=
  readNumber value

/-- CurrencyField.format: null for undefined or null input, otherwise
this.formatter.format(value). -/
def CurrencyField.format (f : CurrencyField) (value : StoredVal) : JSVal :=
  match value with
  | .undef => .jnull
  | .jnull => .jnull
  | .num q => .str (currencyFormatter f.minDP f.maxDP q)

/-- PercentField: constructor(id, interfaceId, minDP=2, maxDP=2) with an
en-AU percent Intl.NumberFormat. -/
structure PercentField where
  id : String
  interfaceId : String
  minDP : ℕ
  maxDP : ℕ
deriving DecidableEq

/-- PercentField.read: readNumber(value). -/
def PercentField.read (_f : PercentField) (value : String) : Option JSNumber :=
  readNumber value

/-- PercentField.format: null for undefined or null input, otherwise
this.formatter.format(value / 100). -/
def PercentField.format (f : PercentField) (value : StoredVal) : JSVal :=
  match value with
  | .undef => .jnull
  | .jnull => .jnull
  | .num q => .str (percentFormatter f.minDP f.maxDP (div100 q))

/-- A field registered with the FieldsHandler: the usage documented by the
module registers CurrencyField and PercentField instances. -/
inductive RField
  | currency (f : CurrencyField)
  | percent (f : PercentField)
deriving DecidableEq

/-- The field id in the Wix dataset. -/
def RField.id : RField → String
  | .currency f => f.id
  | .percent f => f.id

/-- The html id of the UI element. -/
def RField.interfaceId : RField → String
  | .currency f => f.interfaceId
  | .percent f => f.interfaceId

/-- Dispatch of the read method (readNumber for both registered kinds). -/
def RField.read : RField → String → Option JSNumber
  | .currency f => f.read
  | .percent f => f.read

/-- Dispatch of the format method. -/
def RField.format : RField → StoredVal → JSVal
  | .currency f => f.format
  | .percent f => f.format

/-- The Dataset class: a Wix dataset id together with the fields requiring
custom formatting. -/
structure Dataset where
  id : String
  fields : List RField
deriving DecidableEq

/-- lodash _.keyBy(datasets, 'id'): an object keyed by dataset id; a later
dataset with the same id overwrites an earlier one. -/
def keyBy (datasets : List Dataset) : String → Option Dataset :=
  datasets.foldl (fun m d => fun k => if k = d.id then some d else m k) (fun _ => none)

/-- A JavaScript runtime error such as dereferencing a property of
undefined or null, or calling .replace on a non-string. -/
inductive JSError
  | typeError
deriving DecidableEq

/-- The page state seen by this module: the static FieldsHandler.PAGE_FIELDS
registry (null before initPage), the Wix record sources (dataset id, field
id, current record value) and the UI elements (html id, element.value). -/
structure SysState where
  pageFields : Option (String → Option Dataset)
  records : String → String → StoredVal
  ui : String → JSVal

/-- FieldsHandler._handleFieldEdit(dataset, field, element), fired on an
onChange event of the element registered for the field:
read the element value, write it to the dataset with setFieldValue, then
re-render the element from the written value. Calling .replace inside
readNumber on a non-string element value would raise a TypeError. -/
def FieldsHandler._handleFieldEdit (dataset : Dataset) (field : RField)
    (st : SysState) : Except JSError SysState :=
  match st.ui field.interfaceId with
  | .str v =>
      let value := StoredVal.ofRead (field.read v)
      .ok { st with
        records := fun d f =>
          if d = dataset.id ∧ f = field.id then value else st.records d f,
        ui := fun k =>
          if k = field.interfaceId then field.format value else st.ui k }
  | _ => .error .typeError

/-- FieldsHandler.loadDataset(datasetId):

    const dataset = this.PAGE_FIELDS[datasetId];
    if (!dataset.fields) { return; }
    let wixData = $w('#' + dataset.id).getCurrentItem();
    for ( const field of dataset.fields ) {
        const value = wixData[field.id];
        $w('#' + field.interfaceId).value = field.format(value);
    }

Before initPage PAGE_FIELDS is null, so indexing it throws a TypeError.
When datasetId is not registered, the lookup yields undefined and the guard
expression itself dereferences dataset.fields on undefined, which throws a
TypeError. For a registered dataset the fields property is an array (always
truthy in JavaScript, even when empty), so the early return is never taken
and the loop assigns the formatted current record value to every registered
UI element in order. -/
def FieldsHandler.loadDataset (st : SysState) (datasetId : String) :
    Except JSError SysState :=
  match st.pageFields with
  | none => .error .typeError
  | some pf =>
    match pf datasetId with
    | none => .error .typeError
    | some dataset =>
      let wixData := st.records dataset.id
      .ok { st with
        ui := dataset.fields.foldl
          (fun u field => fun k =>
            if k = field.interfaceId then field.format (wixData field.id) else u k)
          st.ui }

/-- The onReady callback registered by FieldsHandler._registerLoadHandlers
for each registered dataset: () => this.loadDataset(dataset.id). -/
def FieldsHandler.onDatasetReady (dataset : Dataset) (st : SysState) :
    Except JSError SysState :=
  FieldsHandler.loadDataset st dataset.id

/-- FieldsHandler.initPage(datasets): store _.keyBy(datasets, 'id') in the
static PAGE_FIELDS. The subsequent _registerElementHandlers and
_registerLoadHandlers calls register _handleFieldEdit and onDatasetReady
with the host UI runtime; they read PAGE_FIELDS and mutate no state of this
module. -/
def FieldsHandler.initPage (st : SysState) (datasets : List Dataset) : SysState :=
  { st with pageFields := some (keyBy datasets) }

/-- refreshDataset from src/UI/updates.js:

    export async function refreshDataset(dataset_id) {
        await $w('#' + dataset_id).refresh();
        FieldsHandler.loadDataset(dataset_id);
    }

The awaited host refresh is modelled as a state transformer applied before
the sequenced continuation, which then runs loadDataset on the refreshed
state; hostRefresh is the effect of the asynchronous
$w('#' + dataset_id).refresh() on the page state. -/
def refreshDataset (hostRefresh : SysState → SysState) (st : SysState)
    (dataset_id : String) : Except JSError SysState :=
  FieldsHandler.loadDataset (hostRefresh st) dataset_id

/- Model of Number.prototype.toString (ECMA-262 Number::toString, radix 10)
on exact decimal values, needed for the specification property
read(s) == read(read(s).toString()). With s, k, n as in the ECMA algorithm
(s the significand digits with no trailing zero, k its digit count, n the
position of the decimal point), the result uses fixed decimal notation when
-6 < n <= 21 and exponential notation otherwise. -/

/-- Count of trailing zero decimal digits of n. -/
def tzCount (n : ℕ) : ℕ := ((natDigitsLE n).takeWhile (fun d => d == 0)).length

/-- Digit characters of the positive value N / 10 ^ e per Number::toString:
with z the trailing zero digits of N, s = N / 10 ^ z the significand and
k its digit count, the point position is n = k + z - e. -/
def jsToStringPosChars (N e : ℕ) : List Char :=
  let z := tzCount N
  let s := N / 10 ^ z
  let k := (natDigitsLE s).length
  if e ≤ z ∧ k + z ≤ 21 + e then
    natChars s ++ List.replicate (z - e) '0'
  else if z < e ∧ e < k + z ∧ k + z ≤ 21 + e then
    natChars (s / 10 ^ (e - z)) ++ '.' ::
      (List.replicate ((e - z) - (natDigitsLE (s % 10 ^ (e - z))).length) '0' ++
        natChars (s % 10 ^ (e - z)))
  else if k + z ≤ e ∧ e < k + z + 6 then
    '0' :: '.' :: (List.replicate (e - (k + z)) '0' ++ natChars s)
  else
    (natChars s).headD '0' ::
      ((if 1 < k then '.' :: (natChars s).tail else []) ++
        'e' :: (if e < k + z then '+' :: renderNat (k + z - (e + 1))
                else '-' :: renderNat (e + 1 - (k + z))))

/-- Number.prototype.toString (radix 10) on an exact decimal value. -/
def jsToString (x : JSNumber) : String :=
  if x.num = 0 then "0"
  else ⟨(if x.num < 0 then ['-'] else []) ++ jsToStringPosChars x.num.natAbs x.exp⟩

/-- Shape of the nonempty strings accepted by Number() over the stripped
alphabet, unsigned part: a nonempty digit string, or digits around exactly
one decimal point with at least one digit present. -/
def UnsignedShape (l : List Char) : Prop :=
  (l ≠ [] ∧ ∀ c ∈ l, c.isDigit = true) ∨
  (∃ A B, l = A ++ '.' :: B ∧ (A ≠ [] ∨ B ≠ []) ∧
    (∀ c ∈ A, c.isDigit = true) ∧ (∀ c ∈ B, c.isDigit = true))

/-- Shape of the nonempty strings accepted by Number() over the stripped
alphabet: an optional leading minus sign before an UnsignedShape string. -/
def NumericShape (l : List Char) : Prop :=
  UnsignedShape l ∨ (∃ rest, l = '-' :: rest ∧ UnsignedShape rest)

/- Concrete fixtures used by the scenario parts of the theorems: the
record-source "orders" with one default CurrencyField on field key "total"
shown in UI element "totalInput". -/

/-- new CurrencyField("total", "totalInput") with the default 2 decimals. -/
def totalField : RField := .currency ⟨"total", "totalInput", 2, 2⟩

/-- new Dataset("orders", [totalField]). -/
def ordersDataset : Dataset := ⟨"orders", [totalField]⟩

/-- Page state after initPage([ordersDataset]) in which the user typed
"1,300" into the totalInput element. -/
def ordersEditState : SysState :=
  ⟨some (keyBy [ordersDataset]), fun _ _ => .undef,
    fun k => if k = "totalInput" then .str "1,300" else .jnull⟩

/-- Page state after initPage([ordersDataset]) whose current "orders"
record holds total = 1234.5. -/
def ordersLoadState : SysState :=
  ⟨some (keyBy [ordersDataset]),
    fun d f => if d = "orders" ∧ f = "total" then .num ⟨12345, 1⟩ else .undef,
    fun _ => .jnull⟩

/-- Page state before initPage: PAGE_FIELDS is still null. -/
def uninitState : SysState := ⟨none, fun _ _ => .undef, fun _ => .jnull⟩

/- Helper lemmas about the digit machinery. -/

theorem natDigitsAux_zero (f : ℕ) : natDigitsAux f 0 = [] := by
  cases f <;> rfl

theorem natDigitsAux_fuel :
    ∀ f₁ n f₂ : ℕ, n ≤ f₁ → n ≤ f₂ → natDigitsAux f₁ n = natDigitsAux f₂ n := by
  intro f₁
  induction f₁ with
  | zero =>
    intro n f₂ h₁ _
    have hn : n = 0 := Nat.le_zero.mp h₁
    subst hn
    simp [natDigitsAux_zero]
  | succ g ih =>
    intro n f₂ h₁ h₂
    match n, f₂ with
    | 0, f₂ => simp [natDigitsAux_zero]
    | m + 1, h + 1 =>
      show (m + 1) % 10 :: natDigitsAux g ((m + 1) / 10) =
        (m + 1) % 10 :: natDigitsAux h ((m + 1) / 10)
      have hd : (m + 1) / 10 < m + 1 := Nat.div_lt_self (Nat.succ_pos m) (by norm_num)
      rw [ih ((m + 1) / 10) h (by omega) (by omega)]

theorem natDigitsLE_pos (n : ℕ) (hn : n ≠ 0) :
    natDigitsLE n = n % 10 :: natDigitsLE (n / 10) := by
  obtain ⟨m, rfl⟩ : ∃ m, n = m + 1 := ⟨n - 1, by omega⟩
  show (m + 1) % 10 :: natDigitsAux m ((m + 1) / 10) = _
  have hd : (m + 1) / 10 < m + 1 := Nat.div_lt_self (Nat.succ_pos m) (by norm_num)
  rw [natDigitsAux_fuel m ((m + 1) / 10) ((m + 1) / 10) (by omega) le_rfl]
  rfl

theorem natDigitsLE_digit_lt {n d : ℕ} (hd : d ∈ natDigitsLE n) : d < 10 := by
  induction n using Nat.strong_induction_on with
  | _ n ih =>
    rcases Nat.eq_zero_or_pos n with h0 | hpos
    · subst h0; simp [natDigitsLE, natDigitsAux] at hd
    · rw [natDigitsLE_pos n (by omega)] at hd
      rcases List.mem_cons.mp hd with h | h
      · subst h; exact Nat.mod_lt _ (by norm_num)
      · exact ih (n / 10) (Nat.div_lt_self hpos (by norm_num)) h

theorem lt_pow_len (n : ℕ) : n < 10 ^ (natDigitsLE n).length := by
  induction n using Nat.strong_induction_on with
  | _ n ih =>
    rcases Nat.eq_zero_or_pos n with h0 | hpos
    · subst h0; simp [natDigitsLE, natDigitsAux]
    · rw [natDigitsLE_pos n (by omega)]
      have hd : n / 10 < n := Nat.div_lt_self hpos (by norm_num)
      have := ih (n / 10) hd
      have hmod : n % 10 < 10 := Nat.mod_lt _ (by norm_num)
      have hn10 : n = 10 * (n / 10) + n % 10 := (Nat.div_add_mod n 10).symm.trans (by ring)
      calc n = 10 * (n / 10) + n % 10 := hn10
        _ < 10 * 10 ^ (natDigitsLE (n / 10)).length := by omega
        _ = 10 ^ (n % 10 :: natDigitsLE (n / 10)).length := by
            simp [List.length_cons, pow_succ]; ring

theorem pow_len_pred_le (n : ℕ) (hn : n ≠ 0) :
    10 ^ ((natDigitsLE n).length - 1) ≤ n := by
  induction n using Nat.strong_induction_on with
  | _ n ih =>
    rw [natDigitsLE_pos n hn]
    rcases Nat.eq_zero_or_pos (n / 10) with h0 | hpos
    · have : n < 10 := by omega
      simp [h0, natDigitsLE, natDigitsAux]
      omega
    · have hd : n / 10 < n := Nat.div_lt_self (by omega) (by norm_num)
      have hne : (natDigitsLE (n / 10)).length ≠ 0 := by
        rw [natDigitsLE_pos (n / 10) (by omega)]
        simp
      have := ih (n / 10) hd (by omega)
      have hgoal : 10 ^ (natDigitsLE (n / 10)).length ≤ n := by
        calc 10 ^ (natDigitsLE (n / 10)).length
            = 10 ^ ((natDigitsLE (n / 10)).length - 1) * 10 := by
              rw [← pow_succ]
              congr 1
              omega
          _ ≤ (n / 10) * 10 := by omega
          _ ≤ n := Nat.div_mul_le_self n 10
      simpa using hgoal

theorem len_le_of_lt_pow {v m : ℕ} (hv : v < 10 ^ m) :
    (natDigitsLE v).length ≤ m := by
  by_contra h
  push_neg at h
  rcases Nat.eq_zero_or_pos v with h0 | hpos
  · subst h0
    simp [natDigitsLE, natDigitsAux] at h
  · have h1 := pow_len_pred_le v (by omega)
    have h2 : 10 ^ m ≤ 10 ^ ((natDigitsLE v).length - 1) :=
      Nat.pow_le_pow_right (by norm_num) (by omega)
    omega

theorem digitVal_digitChr {d : ℕ} (hd : d < 10) : digitVal (digitChr d) = d := by
  interval_cases d <;> decide

theorem isDigit_digitChr {d : ℕ} (hd : d < 10) : (digitChr d).isDigit = true := by
  interval_cases d <;> decide

theorem dtn_foldl_init (B : List Char) (a : ℕ) :
    B.foldl (fun x c => 10 * x + digitVal c) a = a * 10 ^ B.length + dtn B := by
  induction B generalizing a with
  | nil => simp [dtn]
  | cons c B ih =>
    show B.foldl _ (10 * a + digitVal c) = _
    rw [ih (10 * a + digitVal c)]
    have hc : dtn (c :: B) = digitVal c * 10 ^ B.length + dtn B := by
      show B.foldl _ (10 * 0 + digitVal c) = _
      rw [ih (10 * 0 + digitVal c)]
      ring
    rw [hc, List.length_cons, pow_succ]
    ring

theorem dtn_cons (c : Char) (B : List Char) :
    dtn (c :: B) = digitVal c * 10 ^ B.length + dtn B := by
  show B.foldl _ (10 * 0 + digitVal c) = _
  rw [dtn_foldl_init B (10 * 0 + digitVal c)]
  ring

theorem dtn_append (A B : List Char) :
    dtn (A ++ B) = dtn A * 10 ^ B.length + dtn B := by
  unfold dtn
  rw [List.foldl_append]
  exact dtn_foldl_init B _

theorem natChars_pos (n : ℕ) (hn : n ≠ 0) :
    natChars n = natChars (n / 10) ++ [digitChr (n % 10)] := by
  unfold natChars
  rw [natDigitsLE_pos n hn]
  simp

theorem dtn_natChars (n : ℕ) : dtn (natChars n) = n := by
  induction n using Nat.strong_induction_on with
  | _ n ih =>
    rcases Nat.eq_zero_or_pos n with h0 | hpos
    · subst h0; rfl
    · rw [natChars_pos n (by omega), dtn_append,
        ih (n / 10) (Nat.div_lt_self hpos (by norm_num))]
      have h1 : dtn [digitChr (n % 10)] = n % 10 := by
        rw [show [digitChr (n % 10)] = digitChr (n % 10) :: [] from rfl, dtn_cons]
        simp [digitVal_digitChr (Nat.mod_lt n (show 0 < 10 by norm_num)), dtn]
      rw [h1]
      simp only [List.length_singleton, pow_one]
      omega

theorem natChars_all_digit {n : ℕ} {c : Char} (hc : c ∈ natChars n) :
    c.isDigit = true := by
  unfold natChars at hc
  rw [List.mem_reverse] at hc
  obtain ⟨d, hd, rfl⟩ := List.mem_map.mp hc
  exact isDigit_digitChr (natDigitsLE_digit_lt hd)

theorem natChars_len (n : ℕ) : (natChars n).length = (natDigitsLE n).length := by
  simp [natChars]

theorem natChars_ne_nil {n : ℕ} (hn : n ≠ 0) : natChars n ≠ [] := by
  rw [natChars_pos n hn]
  simp

theorem dtn_replicate_zero (z : ℕ) : dtn (List.replicate z '0') = 0 := by
  induction z with
  | zero => rfl
  | succ z ih =>
    rw [List.replicate_succ, dtn_cons, ih]
    simp [digitVal]

theorem dtn_zeros_append (z : ℕ) (A : List Char) :
    dtn (List.replicate z '0' ++ A) = dtn A := by
  rw [dtn_append, dtn_replicate_zero]
  simp

theorem isDigit_ne_dash {c : Char} (hc : c.isDigit = true) : c ≠ '-' := by
  intro he
  subst he
  exact absurd hc (by decide)

theorem isDigit_ne_dot {c : Char} (hc : c.isDigit = true) : c ≠ '.' := by
  intro he
  subst he
  exact absurd hc (by decide)

theorem isDigit_keep {c : Char} (hc : c.isDigit = true) : keepChar c = true := by
  simp [keepChar, hc]

/- Helper lemmas about span and parseUnsigned on well-shaped digit strings. -/

theorem span_no_dot (A : List Char) (hA : ∀ c ∈ A, c ≠ '.') :
    A.span (fun c => c ≠ '.') = (A, []) := by
  rw [List.span_eq_take_drop]
  induction A with
  | nil => rfl
  | cons a A ih =>
    have ha : a ≠ '.' := hA a (List.mem_cons_self a A)
    have hrest := ih (fun c hc => hA c (List.mem_cons_of_mem a hc))
    have h1 := congrArg Prod.fst hrest
    have h2 := congrArg Prod.snd hrest
    simp only at h1 h2
    rw [List.takeWhile_cons, List.dropWhile_cons,
      if_pos (decide_eq_true ha), if_pos (decide_eq_true ha), h1, h2]

theorem span_dot_split (A B : List Char) (hA : ∀ c ∈ A, c ≠ '.') :
    (A ++ '.' :: B).span (fun c => c ≠ '.') = (A, '.' :: B) := by
  rw [List.span_eq_take_drop]
  induction A with
  | nil =>
    rw [List.nil_append, List.takeWhile_cons, List.dropWhile_cons,
      if_neg (by decide), if_neg (by decide)]
  | cons a A ih =>
    have ha : a ≠ '.' := hA a (List.mem_cons_self a A)
    have hrest := ih (fun c hc => hA c (List.mem_cons_of_mem a hc))
    have h1 := congrArg Prod.fst hrest
    have h2 := congrArg Prod.snd hrest
    simp only at h1 h2
    rw [List.cons_append, List.takeWhile_cons, List.dropWhile_cons,
      if_pos (decide_eq_true ha), if_pos (decide_eq_true ha), h1, h2]

theorem parseUnsigned_digits (A : List Char) (hne : A ≠ [])
    (hdig : ∀ c ∈ A, c.isDigit = true) :
    parseUnsigned A = some ⟨dtn A, 0⟩ := by
  unfold parseUnsigned
  rw [span_no_dot A (fun c hc => isDigit_ne_dot (hdig c hc))]
  simp [hne, List.all_eq_true.mpr hdig]

theorem parseUnsigned_point (A B : List Char)
    (hA : ∀ c ∈ A, c.isDigit = true) (hB : ∀ c ∈ B, c.isDigit = true)
    (hne : A ≠ [] ∨ B ≠ []) :
    parseUnsigned (A ++ '.' :: B) =
      some ⟨dtn A * 10 ^ B.length + dtn B, B.length⟩ := by
  unfold parseUnsigned
  rw [span_dot_split A B (fun c hc => isDigit_ne_dot (hA c hc))]
  simp [hne, List.all_eq_true.mpr hA, List.all_eq_true.mpr hB]

theorem jsNumber_cons_ne_dash (c : Char) (rest : List Char) (hc : c ≠ '-') :
    jsNumber (c :: rest) = parseUnsigned (c :: rest) := by
  unfold jsNumber
  split
  · simp_all
  · rename_i h
    injection h with h1 _
    exact absurd h1 hc
  · rfl

/- Helper lemmas about trailing zero digits and Number::toString. -/

theorem tzCount_of_mod_ne {N : ℕ} (hN : N ≠ 0) (hmod : N % 10 ≠ 0) :
    tzCount N = 0 := by
  unfold tzCount
  rw [natDigitsLE_pos N hN, List.takeWhile_cons, if_neg (by simp [hmod])]
  rfl

theorem tzCount_of_mod_eq {N : ℕ} (hN : N ≠ 0) (hmod : N % 10 = 0) :
    tzCount N = tzCount (N / 10) + 1 := by
  unfold tzCount
  rw [natDigitsLE_pos N hN, List.takeWhile_cons, if_pos (by simp [hmod])]
  simp [tzCount]

theorem tz_exact (N : ℕ) (hN : N ≠ 0) :
    N / 10 ^ tzCount N * 10 ^ tzCount N = N := by
  induction N using Nat.strong_induction_on with
  | _ N ih =>
    by_cases hmod : N % 10 = 0
    · have hq : N / 10 ≠ 0 := by omega
      have hlt : N / 10 < N := Nat.div_lt_self (by omega) (by norm_num)
      have hrec := ih (N / 10) hlt hq
      rw [tzCount_of_mod_eq hN hmod]
      have hdd : N / 10 ^ (tzCount (N / 10) + 1) = N / 10 / 10 ^ tzCount (N / 10) := by
        rw [pow_succ, Nat.mul_comm, ← Nat.div_div_eq_div_mul]
      rw [hdd, pow_succ]
      have hassoc : N / 10 / 10 ^ tzCount (N / 10) * (10 ^ tzCount (N / 10) * 10)
          = N / 10 / 10 ^ tzCount (N / 10) * 10 ^ tzCount (N / 10) * 10 := by ring
      rw [hassoc, hrec]
      omega
    · rw [tzCount_of_mod_ne hN hmod]
      simp

theorem natDigitsLE_len_pos {s : ℕ} (hs : s ≠ 0) : (natDigitsLE s).length ≠ 0 := by
  rw [natDigitsLE_pos s hs]
  simp

/-- In the three fixed-notation branches of Number::toString, the produced
character list parses back (via the stripped-alphabet Number grammar) to a
value numerically equal to N / 10 ^ e, and every character survives the
readNumber strip and differs from the minus sign. -/
theorem jsToStringPosChars_spec (N e : ℕ) (hN : N ≠ 0)
    (hlo : 10 ^ e ≤ N * 10 ^ 6) (hhi : N < 10 ^ (21 + e)) :
    ∃ m x : ℕ,
      parseUnsigned (jsToStringPosChars N e) = some ⟨(m : ℤ), x⟩ ∧
      m * 10 ^ e = N * 10 ^ x ∧
      (∀ c ∈ jsToStringPosChars N e, keepChar c = true ∧ c ≠ '-') ∧
      jsToStringPosChars N e ≠ [] := by
  obtain ⟨z, hz⟩ : ∃ z, tzCount N = z := ⟨_, rfl⟩
  obtain ⟨s, hs⟩ : ∃ s, N / 10 ^ z = s := ⟨_, rfl⟩
  obtain ⟨k, hk⟩ : ∃ k, (natDigitsLE s).length = k := ⟨_, rfl⟩
  have hzx : s * 10 ^ z = N := by
    rw [← hs, ← hz]
    exact tz_exact N hN
  have hs0 : s ≠ 0 := by
    intro h0
    rw [h0] at hzx
    simp at hzx
    exact hN hzx.symm
  have hkpos : k ≠ 0 := hk ▸ natDigitsLE_len_pos hs0
  have hk1 : 10 ^ (k - 1) ≤ s := hk ▸ pow_len_pred_le s hs0
  have hk2 : s < 10 ^ k := hk ▸ lt_pow_len s
  have hn21 : k + z ≤ 21 + e := by
    have h1 : 10 ^ (k - 1) * 10 ^ z ≤ s * 10 ^ z :=
      Nat.mul_le_mul_right _ hk1
    rw [hzx, ← pow_add] at h1
    have h2 : 10 ^ (k - 1 + z) < 10 ^ (21 + e) := lt_of_le_of_lt h1 hhi
    have h3 : k - 1 + z < 21 + e :=
      (Nat.pow_lt_pow_iff_right (by norm_num)).mp h2
    omega
  have hn6 : e < k + z + 6 := by
    have h1 : N * 10 ^ 6 < 10 ^ k * 10 ^ z * 10 ^ 6 := by
      rw [← hzx]
      have hstep : s * 10 ^ z < 10 ^ k * 10 ^ z :=
        (Nat.mul_lt_mul_right (by positivity)).mpr hk2
      exact (Nat.mul_lt_mul_right (show 0 < 10 ^ 6 by positivity)).mpr hstep
    rw [← pow_add, ← pow_add] at h1
    have h2 : 10 ^ e < 10 ^ (k + z + 6) := lt_of_le_of_lt hlo h1
    exact (Nat.pow_lt_pow_iff_right (by norm_num)).mp h2
  have hchars : jsToStringPosChars N e =
      (if e ≤ z ∧ k + z ≤ 21 + e then natChars s ++ List.replicate (z - e) '0'
       else if z < e ∧ e < k + z ∧ k + z ≤ 21 + e then
         natChars (s / 10 ^ (e - z)) ++ '.' ::
           (List.replicate ((e - z) - (natDigitsLE (s % 10 ^ (e - z))).length) '0' ++
             natChars (s % 10 ^ (e - z)))
       else if k + z ≤ e ∧ e < k + z + 6 then
         '0' :: '.' :: (List.replicate (e - (k + z)) '0' ++ natChars s)
       else
         (natChars s).headD '0' ::
           ((if 1 < k then '.' :: (natChars s).tail else []) ++
             'e' :: (if e < k + z then '+' :: renderNat (k + z - (e + 1))
                     else '-' :: renderNat (e + 1 - (k + z))))) := by
    simp only [jsToStringPosChars]
    rw [hz, hs, hk]
  by_cases hA : e ≤ z ∧ k + z ≤ 21 + e
  · -- integer fixed notation
    rw [hchars, if_pos hA]
    have hdig : ∀ c ∈ natChars s ++ List.replicate (z - e) '0', c.isDigit = true := by
      intro c hc
      rcases List.mem_append.mp hc with h | h
      · exact natChars_all_digit h
      · rw [List.eq_of_mem_replicate h]
        decide
    have hne : natChars s ++ List.replicate (z - e) '0' ≠ [] := by
      intro h0
      exact natChars_ne_nil hs0 (List.append_eq_nil.mp h0).1
    refine ⟨s * 10 ^ (z - e), 0, ?_, ?_, ?_, hne⟩
    · rw [parseUnsigned_digits _ hne hdig, dtn_append, dtn_natChars,
        dtn_replicate_zero, List.length_replicate]
      simp
    · rw [pow_zero, Nat.mul_one, Nat.mul_assoc, ← pow_add,
        Nat.sub_add_cancel hA.1, hzx]
    · intro c hc
      exact ⟨isDigit_keep (hdig c hc), isDigit_ne_dash (hdig c hc)⟩
  · by_cases hB : z < e ∧ e < k + z ∧ k + z ≤ 21 + e
    · -- fraction point inside the significand digits
      rw [hchars, if_neg hA, if_pos hB]
      obtain ⟨hze, hekz, h21⟩ := hB
      have hmlt : e - z < k := by omega
      have hsm : s % 10 ^ (e - z) < 10 ^ (e - z) :=
        Nat.mod_lt _ (by positivity)
      have hL : (natDigitsLE (s % 10 ^ (e - z))).length ≤ e - z :=
        len_le_of_lt_pow hsm
      have hip0 : s / 10 ^ (e - z) ≠ 0 := by
        have : 10 ^ (e - z) ≤ s := le_trans (Nat.pow_le_pow_right (by norm_num) (by omega)) hk1
        have := Nat.div_pos this (by positivity)
        omega
      have hipne : natChars (s / 10 ^ (e - z)) ≠ [] := natChars_ne_nil hip0
      have hAdig : ∀ c ∈ natChars (s / 10 ^ (e - z)), c.isDigit = true :=
        fun c hc => natChars_all_digit hc
      have hBdig : ∀ c ∈ List.replicate ((e - z) - (natDigitsLE (s % 10 ^ (e - z))).length) '0' ++
          natChars (s % 10 ^ (e - z)), c.isDigit = true := by
        intro c hc
        rcases List.mem_append.mp hc with h | h
        · rw [List.eq_of_mem_replicate h]
          decide
        · exact natChars_all_digit h
      have hlenB : (List.replicate ((e - z) - (natDigitsLE (s % 10 ^ (e - z))).length) '0' ++
          natChars (s % 10 ^ (e - z))).length = e - z := by
        rw [List.length_append, List.length_replicate, natChars_len]
        omega
      refine ⟨s, e - z, ?_, ?_, ?_, by simp [hipne]⟩
      · rw [parseUnsigned_point _ _ hAdig hBdig (Or.inl hipne), hlenB,
          dtn_natChars, dtn_zeros_append, dtn_natChars]
        have hdm : s / 10 ^ (e - z) * 10 ^ (e - z) + s % 10 ^ (e - z) = s := by
          rw [Nat.mul_comm]
          exact Nat.div_add_mod s (10 ^ (e - z))
        simp only [Option.some.injEq, JSNumber.mk.injEq]
        exact ⟨by exact_mod_cast hdm, trivial⟩
      · rw [← hzx, Nat.mul_assoc, ← pow_add]
        congr 2
        omega
      · intro c hc
        rcases List.mem_append.mp hc with h | h
        · exact ⟨isDigit_keep (hAdig c h), isDigit_ne_dash (hAdig c h)⟩
        · rcases List.mem_cons.mp h with h' | h'
          · subst h'
            exact ⟨by decide, by decide⟩
          · exact ⟨isDigit_keep (hBdig c h'), isDigit_ne_dash (hBdig c h')⟩
    · by_cases hC : k + z ≤ e ∧ e < k + z + 6
      · -- leading 0.000 notation
        rw [hchars, if_neg hA, if_neg hB, if_pos hC]
        have hBdig : ∀ c ∈ List.replicate (e - (k + z)) '0' ++ natChars s,
            c.isDigit = true := by
          intro c hc
          rcases List.mem_append.mp hc with h | h
          · rw [List.eq_of_mem_replicate h]
            decide
          · exact natChars_all_digit h
        have hlenB : (List.replicate (e - (k + z)) '0' ++ natChars s).length = e - z := by
          rw [List.length_append, List.length_replicate, natChars_len, hk]
          omega
        have hshape : ('0' : Char) :: '.' ::
            (List.replicate (e - (k + z)) '0' ++ natChars s) =
            ['0'] ++ '.' :: (List.replicate (e - (k + z)) '0' ++ natChars s) := rfl
        refine ⟨s, e - z, ?_, ?_, ?_, by simp⟩
        · rw [hshape, parseUnsigned_point _ _ (by intro c hc; simp at hc; subst hc; decide)
            hBdig (Or.inl (by simp)), hlenB, dtn_zeros_append, dtn_natChars]
          have h0 : dtn ['0'] = 0 := by decide
          rw [h0]
          simp
        · rw [← hzx, Nat.mul_assoc, ← pow_add]
          congr 2
          omega
        · intro c hc
          rcases List.mem_cons.mp hc with h | h
          · subst h
            exact ⟨by decide, by decide⟩
          · rcases List.mem_cons.mp h with h' | h'
            · subst h'
              exact ⟨by decide, by decide⟩
            · exact ⟨isDigit_keep (hBdig c h'), isDigit_ne_dash (hBdig c h')⟩
      · -- the range hypotheses exclude the exponential branch
        exfalso
        omega

/-- Assembly of the toString round trip on a nonzero value in the
fixed-notation range: readNumber applied to jsToString yields a value
numerically equal to the input. -/
theorem readNumber_jsToString (d : JSNumber) (hd : d.num ≠ 0)
    (hlo : 10 ^ d.exp ≤ d.num.natAbs * 10 ^ 6)
    (hhi : d.num.natAbs < 10 ^ (21 + d.exp)) :
    ∃ d' : JSNumber, readNumber (jsToString d) = some d' ∧ d'.sameValue d := by
  have hNne : d.num.natAbs ≠ 0 := by omega
  obtain ⟨m, x, hparse, hval, hkeep, hne⟩ :=
    jsToStringPosChars_spec d.num.natAbs d.exp hNne hlo hhi
  have hjs : jsToString d = ⟨(if d.num < 0 then ['-'] else []) ++
      jsToStringPosChars d.num.natAbs d.exp⟩ := by
    rw [jsToString, if_neg hd]
  have hstrip : stripNonNumeric ((if d.num < 0 then ['-'] else []) ++
      jsToStringPosChars d.num.natAbs d.exp) =
      (if d.num < 0 then ['-'] else []) ++ jsToStringPosChars d.num.natAbs d.exp := by
    apply List.filter_eq_self.mpr
    intro c hc
    rcases List.mem_append.mp hc with h | h
    · by_cases hneg : d.num < 0
      · rw [if_pos hneg] at h
        simp at h
        subst h
        decide
      · rw [if_neg hneg] at h
        simp at h
    · exact (hkeep c h).1
  have hread : readNumber (jsToString d) =
      jsNumber ((if d.num < 0 then ['-'] else []) ++
        jsToStringPosChars d.num.natAbs d.exp) := by
    rw [hjs]
    show jsNumber (stripNonNumeric ((if d.num < 0 then ['-'] else []) ++
      jsToStringPosChars d.num.natAbs d.exp)) = _
    rw [hstrip]
  have hvalZ : (m : ℤ) * 10 ^ d.exp = (d.num.natAbs : ℤ) * 10 ^ x := by
    exact_mod_cast hval
  by_cases hneg : d.num < 0
  · refine ⟨⟨-(m : ℤ), x⟩, ?_, ?_⟩
    · rw [hread, if_pos hneg, List.cons_append, List.nil_append]
      show (parseUnsigned (jsToStringPosChars d.num.natAbs d.exp)).map _ = _
      rw [hparse]
      rfl
    · show (-(m : ℤ)) * 10 ^ d.exp = d.num * 10 ^ x
      have hnum : d.num = -(d.num.natAbs : ℤ) := by omega
      rw [hnum]
      calc (-(m : ℤ)) * 10 ^ d.exp = -((m : ℤ) * 10 ^ d.exp) := by ring
        _ = -((d.num.natAbs : ℤ) * 10 ^ x) := by rw [hvalZ]
        _ = -(d.num.natAbs : ℤ) * 10 ^ x := by ring
  · cases hlist : jsToStringPosChars d.num.natAbs d.exp with
    | nil => exact absurd hlist hne
    | cons c rest =>
      have hcdash : c ≠ '-' := by
        have := (hkeep c (by rw [hlist]; exact List.mem_cons_self c rest)).2
        exact this
      refine ⟨⟨(m : ℤ), x⟩, ?_, ?_⟩
      · rw [hread, if_neg hneg, List.nil_append, hlist,
          jsNumber_cons_ne_dash c rest hcdash, ← hlist, hparse]
      · show (m : ℤ) * 10 ^ d.exp = d.num * 10 ^ x
        have hnum : d.num = (d.num.natAbs : ℤ) := by omega
        rw [hnum]
        exact hvalZ

/- Helper lemmas for the Number() grammar characterization. -/

theorem dropWhile_head_false {p : Char → Bool} {l : List Char} {c : Char}
    {cs : List Char} (h : l.dropWhile p = c :: cs) : p c = false := by
  induction l with
  | nil => cases h
  | cons a l ih =>
    rw [List.dropWhile_cons] at h
    by_cases hp : p a = true
    · rw [if_pos hp] at h
      exact ih h
    · rw [if_neg hp] at h
      injection h with h1 _
      subst h1
      simpa using hp

theorem parseUnsigned_shape_some {l : List Char} (h : UnsignedShape l) :
    (parseUnsigned l).isSome = true := by
  rcases h with ⟨hne, hdig⟩ | ⟨A, B, rfl, hne, hA, hB⟩
  · rw [parseUnsigned_digits l hne hdig]
    rfl
  · rw [parseUnsigned_point A B hA hB hne]
    rfl

theorem parseUnsigned_some_shape {l : List Char}
    (h : (parseUnsigned l).isSome = true) : UnsignedShape l := by
  rcases hsp : l.span (fun c => c ≠ '.') with ⟨ip, rest⟩
  have h12 : List.takeWhile (fun c => decide (c ≠ '.')) l = ip ∧
      List.dropWhile (fun c => decide (c ≠ '.')) l = rest := by
    rw [List.span_eq_take_drop] at hsp
    injection hsp with h1 h2
    exact ⟨h1, h2⟩
  have hsplit : ip ++ rest = l := by
    rw [← h12.1, ← h12.2]
    exact List.takeWhile_append_dropWhile _ l
  have hred : parseUnsigned l =
      (match (ip, rest) with
       | (ip, []) =>
           if ip ≠ [] ∧ ip.all Char.isDigit = true then
             some ⟨(dtn ip : ℤ), 0⟩ else none
       | (ip, _ :: fp) =>
           if (ip ≠ [] ∨ fp ≠ []) ∧ ip.all Char.isDigit = true ∧
               fp.all Char.isDigit = true then
             some ⟨(dtn ip : ℤ) * 10 ^ fp.length + (dtn fp : ℤ), fp.length⟩
           else none) := by
    unfold parseUnsigned
    rw [hsp]
  cases rest with
  | nil =>
    by_cases hcond : ip ≠ [] ∧ ip.all Char.isDigit = true
    · left
      rw [← hsplit, List.append_nil]
      exact ⟨hcond.1, List.all_eq_true.mp hcond.2⟩
    · exfalso
      have hnone : parseUnsigned l = none := by
        rw [hred]
        exact if_neg hcond
      rw [hnone] at h
      simp at h
  | cons c fp =>
    have hc : c = '.' := by
      have := dropWhile_head_false h12.2
      simpa using this
    subst hc
    by_cases hcond : (ip ≠ [] ∨ fp ≠ []) ∧ ip.all Char.isDigit = true ∧
        fp.all Char.isDigit = true
    · right
      exact ⟨ip, fp, hsplit.symm, hcond.1,
        List.all_eq_true.mp hcond.2.1, List.all_eq_true.mp hcond.2.2⟩
    · exfalso
      have hnone : parseUnsigned l = none := by
        rw [hred]
        exact if_neg hcond
      rw [hnone] at h
      simp at h

theorem not_unsignedShape_dash (rest : List Char) :
    ¬ UnsignedShape ('-' :: rest) := by
  intro h
  rcases h with ⟨_, hdig⟩ | ⟨A, B, heq, _, hA, _⟩
  · exact absurd (hdig '-' (List.mem_cons_self _ _)) (by decide)
  · cases A with
    | nil => simp at heq
    | cons a A' =>
      rw [List.cons_append] at heq
      injection heq with h1 _
      exact absurd (hA a (List.mem_cons_self _ _)) (by rw [← h1]; decide)

theorem jsNumber_none_iff (l : List Char) :
    jsNumber l = none ↔ l ≠ [] ∧ ¬ NumericShape l := by
  cases l with
  | nil => simp [jsNumber]
  | cons c rest =>
    by_cases hc : c = '-'
    · subst hc
      have hred : jsNumber ('-' :: rest) =
          (parseUnsigned rest).map (fun d => ⟨-d.num, d.exp⟩) := rfl
      rw [hred]
      constructor
      · intro h
        refine ⟨by simp, ?_⟩
        intro hshape
        have hsome : (parseUnsigned rest).isSome = true := by
          rcases hshape with h1 | ⟨rest', heq, h2⟩
          · exact absurd h1 (not_unsignedShape_dash rest)
          · injection heq with _ h3
            rw [h3]
            exact parseUnsigned_shape_some h2
        rcases Option.isSome_iff_exists.mp hsome with ⟨a, ha⟩
        rw [ha] at h
        cases h
      · intro ⟨_, hshape⟩
        cases hp : parseUnsigned rest with
        | none => rfl
        | some a =>
          exfalso
          apply hshape
          right
          exact ⟨rest, rfl, parseUnsigned_some_shape (by rw [hp]; rfl)⟩
    · rw [jsNumber_cons_ne_dash c rest hc]
      constructor
      · intro h
        refine ⟨by simp, ?_⟩
        intro hshape
        have hsome : (parseUnsigned (c :: rest)).isSome = true := by
          rcases hshape with h1 | ⟨rest', heq, _⟩
          · exact parseUnsigned_shape_some h1
          · injection heq with h2 _
            exact absurd h2 hc
        rcases Option.isSome_iff_exists.mp hsome with ⟨a, ha⟩
        rw [ha] at h
        cases h
      · intro ⟨_, hshape⟩
        cases hp : parseUnsigned (c :: rest) with
        | none => rfl
        | some a =>
          exfalso
          exact hshape (Or.inl (parseUnsigned_some_shape (by rw [hp]; rfl)))

/- Helper lemmas for the formatter and the binding registry. -/

theorem mul100_div100 (q : JSNumber) : mul100 (div100 q) = q := by
  unfold mul100 div100
  rw [if_pos (by omega : 2 ≤ q.exp + 2)]
  simp

theorem handleFieldEdit_str (dataset : Dataset) (field : RField) (st : SysState)
    (v : String) (hv : st.ui field.interfaceId = .str v) :
    FieldsHandler._handleFieldEdit dataset field st = .ok { st with
      records := fun d f => if d = dataset.id ∧ f = field.id
        then StoredVal.ofRead (field.read v) else st.records d f,
      ui := fun k => if k = field.interfaceId
        then field.format (StoredVal.ofRead (field.read v)) else st.ui k } := by
  unfold FieldsHandler._handleFieldEdit
  rw [hv]

theorem loadDataset_null_registry (st : SysState) (k : String)
    (hpf : st.pageFields = none) :
    FieldsHandler.loadDataset st k = .error .typeError := by
  unfold FieldsHandler.loadDataset
  rw [hpf]

theorem loadDataset_eq_match (st : SysState) (pf : String → Option Dataset)
    (k : String) (hpf : st.pageFields = some pf) :
    FieldsHandler.loadDataset st k =
      (match pf k with
       | none => .error .typeError
       | some dataset => .ok { st with
           ui := dataset.fields.foldl (fun u field => fun x =>
             if x = field.interfaceId
             then field.format (st.records dataset.id field.id) else u x) st.ui }) := by
  unfold FieldsHandler.loadDataset
  rw [hpf]

theorem loadDataset_registered (st : SysState) (pf : String → Option Dataset)
    (k : String) (ds : Dataset) (hpf : st.pageFields = some pf)
    (hk : pf k = some ds) :
    FieldsHandler.loadDataset st k = .ok { st with
      ui := ds.fields.foldl (fun u field => fun x =>
        if x = field.interfaceId then field.format (st.records ds.id field.id)
        else u x) st.ui } := by
  have h1 : FieldsHandler.loadDataset st k =
      (match pf k with
       | none => .error .typeError
       | some dataset => .ok { st with
           ui := dataset.fields.foldl (fun u field => fun x =>
             if x = field.interfaceId
             then field.format (st.records dataset.id field.id) else u x) st.ui }) := by
    unfold FieldsHandler.loadDataset
    rw [hpf]
  rw [h1, hk]

theorem load_foldl_not_mem (fields : List RField) (wixData : String → StoredVal)
    (u : String → JSVal) (x : String) (hx : ∀ f ∈ fields, f.interfaceId ≠ x) :
    (fields.foldl (fun u field => fun k =>
      if k = field.interfaceId then field.format (wixData field.id) else u k) u) x
      = u x := by
  induction fields generalizing u with
  | nil => rfl
  | cons g rest ih =>
    rw [List.foldl_cons, ih _ (fun f hf => hx f (List.mem_cons_of_mem g hf))]
    exact if_neg (fun h => hx g (List.mem_cons_self g rest) h.symm)

theorem load_foldl_mem (fields : List RField) (wixData : String → StoredVal)
    (f : RField) :
    ∀ u : String → JSVal, f ∈ fields → (fields.map RField.interfaceId).Nodup →
    (fields.foldl (fun u field => fun k =>
      if k = field.interfaceId then field.format (wixData field.id) else u k) u)
      f.interfaceId = f.format (wixData f.id) := by
  induction fields with
  | nil =>
    intro u hf _
    cases hf
  | cons g rest ih =>
    intro u hf hnd
    rw [List.map_cons, List.nodup_cons] at hnd
    rw [List.foldl_cons]
    rcases List.mem_cons.mp hf with rfl | hmem
    · rw [load_foldl_not_mem rest wixData _ f.interfaceId
        (fun f' hf' h' => hnd.1 (h' ▸ List.mem_map_of_mem RField.interfaceId hf'))]
      exact if_pos rfl
    · exact ih _ hmem hnd.2

/- Claim theorems. -/

/-- C1 (code bug): FieldsHandler.loadDataset on a record-source key that is
not registered in PAGE_FIELDS is not a guarded no-op. The lookup yields
undefined and the guard expression if (not dataset.fields) itself
dereferences the fields property of undefined, so the call raises a
TypeError before the presence test can return. The spec describes the
evident intent of the guard line; the code is missing the
dataset-is-undefined check. -/
theorem loadDataset_unregistered_throws (st : SysState)
    (pf : String → Option Dataset) (k : String)
    (hpf : st.pageFields = some pf) (hk : pf k = none) :
    FieldsHandler.loadDataset st k = .error .typeError := by
  have h1 : FieldsHandler.loadDataset st k =
      (match pf k with
       | none => .error .typeError
       | some dataset => .ok { st with
           ui := dataset.fields.foldl (fun u field => fun x =>
             if x = field.interfaceId
             then field.format (st.records dataset.id field.id) else u x) st.ui }) := by
    unfold FieldsHandler.loadDataset
    rw [hpf]
  rw [h1, hk]

/-- C1 witness: with only an empty registry initialized, loading the
unregistered key "missing" evaluates to the TypeError outcome. -/
theorem loadDataset_unregistered_throws_witness :
    FieldsHandler.loadDataset
      ⟨some (keyBy []), fun _ _ => .undef, fun _ => .jnull⟩ "missing" =
      .error .typeError :=
  loadDataset_unregistered_throws _ (keyBy []) "missing" rfl rfl

/-- C2 counterexample: "abc" is a non-numeric input string (it contains no
digit at all), yet readNumber returns 0 rather than null, because the strip
leaves the empty string and JavaScript Number("") is 0. -/
theorem readNumber_nonnumeric_counterexample :
    readNumber "abc" = some ⟨0, 0⟩ ∧ readNumber "abc" ≠ none := by
  refine ⟨by decide, by decide⟩

/-- C2 amended: readNumber strips every character except digits, dot and
minus and parses the remainder with Number; it returns null exactly when
the stripped remainder is nonempty and is not a well-formed optionally
signed decimal numeral. In particular an input whose stripped remainder is
empty (such as any string without digits, dot or minus) yields the number
0, not null. -/
theorem readNumber_null_characterization (s : String) :
    (readNumber s = none ↔
      stripNonNumeric s.toList ≠ [] ∧ ¬ NumericShape (stripNonNumeric s.toList)) ∧
    (stripNonNumeric s.toList = [] → readNumber s = some ⟨0, 0⟩) := by
  constructor
  · show jsNumber (stripNonNumeric s.toList) = none ↔ _
    exact jsNumber_none_iff (stripNonNumeric s.toList)
  · intro h
    show jsNumber (stripNonNumeric s.toList) = some ⟨0, 0⟩
    rw [h]
    rfl

/-- C2 witness: at the concrete input "abc" the stripped remainder is empty
and the amended characterization yields the number 0. -/
theorem readNumber_null_characterization_witness :
    readNumber "abc" = some ⟨0, 0⟩ :=
  (readNumber_null_characterization "abc").2 (by decide)

/-- C3: PercentField.format on a stored number divides it by 100 and the
percent style of the formatter scales it back by 100, so the rendered
string shows the stored value itself (grouped, with the configured fraction
digits) followed by the percent sign; stored 50 with 0 fraction digits
renders "50%" and stored 12.345 with 1 fraction digit renders "12.3%". -/
theorem percentField_format_shows_value (f : PercentField) (q : JSNumber) :
    f.format (.num q) = .str ⟨(if q.num < 0 then ['-'] else []) ++
      renderFixed q f.minDP f.maxDP ++ ['%']⟩ ∧
    PercentField.format ⟨"rate", "rateInput", 1, 1⟩ (.num ⟨12345, 3⟩) =
      .str "12.3%" ∧
    PercentField.format ⟨"rate", "rateInput", 0, 0⟩ (.num ⟨50, 0⟩) =
      .str "50%" := by
  refine ⟨?_, by decide, by decide⟩
  show JSVal.str (percentFormatter f.minDP f.maxDP (div100 q)) = _
  unfold percentFormatter
  rw [mul100_div100]
  rfl

/-- C4: on a change event of a registered field whose element holds the
string v, the handler parses v with the field read method, writes the
parsed value to the record source at the field key, and re-renders the
element with format applied to that same parsed value; editing the default
currency field to "1,300" writes the number 1300 and re-renders
"$1,300.00". -/
theorem handleFieldEdit_writes_then_rerenders (dataset : Dataset)
    (field : RField) (st : SysState) (v : String)
    (hv : st.ui field.interfaceId = .str v) :
    (FieldsHandler._handleFieldEdit dataset field st).map
        (fun st' => st'.records dataset.id field.id) =
      .ok (StoredVal.ofRead (field.read v)) ∧
    (FieldsHandler._handleFieldEdit dataset field st).map
        (fun st' => st'.ui field.interfaceId) =
      .ok (field.format (StoredVal.ofRead (field.read v))) ∧
    (FieldsHandler._handleFieldEdit ordersDataset totalField ordersEditState).map
        (fun st' => st'.records "orders" "total") = .ok (.num ⟨1300, 0⟩) ∧
    (FieldsHandler._handleFieldEdit ordersDataset totalField ordersEditState).map
        (fun st' => st'.ui "totalInput") = .ok (.str "$1,300.00") := by
  refine ⟨?_, ?_, by rfl, by rfl⟩
  · rw [handleFieldEdit_str dataset field st v hv]
    simp [Except.map]
  · rw [handleFieldEdit_str dataset field st v hv]
    simp [Except.map]

/-- C4 witness: the handler applied to the concrete "1,300" edit. -/
theorem handleFieldEdit_writes_then_rerenders_witness :
    (FieldsHandler._handleFieldEdit ordersDataset totalField ordersEditState).map
        (fun st' => st'.records ordersDataset.id totalField.id) =
      .ok (StoredVal.ofRead (totalField.read "1,300")) :=
  (handleFieldEdit_writes_then_rerenders ordersDataset totalField
    ordersEditState "1,300" rfl).1

/-- C5: loadDataset on a registered key fetches the current record of that
record source once and assigns format of the record value to the UI element
of every registered field (the record sources themselves are unchanged),
and the ready handler is exactly loadDataset of the dataset key; the
registered currency field with record value 1234.5 displays "$1,234.50". -/
theorem loadDataset_renders_current_record (st : SysState)
    (pf : String → Option Dataset) (k : String) (ds : Dataset)
    (hpf : st.pageFields = some pf) (hk : pf k = some ds)
    (hnd : (ds.fields.map RField.interfaceId).Nodup)
    (f : RField) (hf : f ∈ ds.fields) :
    (FieldsHandler.loadDataset st k).map (fun st' => st'.ui f.interfaceId) =
      .ok (f.format (st.records ds.id f.id)) ∧
    (FieldsHandler.loadDataset st k).map SysState.records = .ok st.records ∧
    FieldsHandler.onDatasetReady ds st = FieldsHandler.loadDataset st ds.id ∧
    (FieldsHandler.loadDataset ordersLoadState "orders").map
      (fun st' => st'.ui "totalInput") = .ok (.str "$1,234.50") := by
  refine ⟨?_, ?_, rfl, by rfl⟩
  · rw [loadDataset_registered st pf k ds hpf hk]
    simp only [Except.map]
    rw [load_foldl_mem ds.fields (st.records ds.id) f st.ui hf hnd]
  · rw [loadDataset_registered st pf k ds hpf hk]
    rfl

/-- C5 witness: loading the concrete "orders" record source renders the
formatted total into its UI element. -/
theorem loadDataset_renders_current_record_witness :
    (FieldsHandler.loadDataset ordersLoadState "orders").map
        (fun st' => st'.ui totalField.interfaceId) =
      .ok (totalField.format
        (ordersLoadState.records ordersDataset.id totalField.id)) :=
  (loadDataset_renders_current_record ordersLoadState (keyBy [ordersDataset])
    "orders" ordersDataset rfl rfl (by decide) totalField (by decide)).1

/-- C6: for both field kinds, format returns null when the input is null
and when the input is undefined (absent). -/
theorem format_null_of_null_or_undefined (c : CurrencyField) (p : PercentField) :
    c.format .jnull = .jnull ∧ c.format .undef = .jnull ∧
    p.format .jnull = .jnull ∧ p.format .undef = .jnull :=
  ⟨rfl, rfl, rfl, rfl⟩

/-- C7: refreshDataset first lets the awaited host refresh transform the
page state and only then runs the registry loadDataset as the sequenced
continuation, so the reload observes the post-refresh record of the record
source for every registered field, never the pre-refresh one. -/
theorem refreshDataset_awaits_then_reloads (hostRefresh : SysState → SysState)
    (st : SysState) (k : String) (pf : String → Option Dataset) (ds : Dataset)
    (hpf : (hostRefresh st).pageFields = some pf) (hk : pf k = some ds)
    (hnd : (ds.fields.map RField.interfaceId).Nodup)
    (f : RField) (hf : f ∈ ds.fields) :
    refreshDataset hostRefresh st k =
      FieldsHandler.loadDataset (hostRefresh st) k ∧
    (refreshDataset hostRefresh st k).map (fun st' => st'.ui f.interfaceId) =
      .ok (f.format ((hostRefresh st).records ds.id f.id)) := by
  refine ⟨rfl, ?_⟩
  show (FieldsHandler.loadDataset (hostRefresh st) k).map _ = _
  rw [loadDataset_registered (hostRefresh st) pf k ds hpf hk]
  simp only [Except.map]
  rw [load_foldl_mem ds.fields ((hostRefresh st).records ds.id) f
    (hostRefresh st).ui hf hnd]

/-- C7 witness: a host refresh that produces the concrete "orders" state,
followed by the reload, shows the post-refresh record value. -/
theorem refreshDataset_awaits_then_reloads_witness :
    (refreshDataset (fun _ => ordersLoadState) uninitState "orders").map
        (fun st' => st'.ui totalField.interfaceId) =
      .ok (totalField.format
        (ordersLoadState.records ordersDataset.id totalField.id)) :=
  (refreshDataset_awaits_then_reloads (fun _ => ordersLoadState) uninitState
    "orders" (keyBy [ordersDataset]) ordersDataset rfl rfl (by decide)
    totalField (by decide)).2

/-- C8 counterexample: the clean numeric string of 10 to the 21st parses to
that value, but Number.prototype.toString renders it in exponential
notation "1e+21", which readNumber strips to "121"; so
read(read(s).toString()) is 121, a different number from read(s). -/
theorem read_toString_counterexample :
    readNumber "1000000000000000000000" = some ⟨10 ^ 21, 0⟩ ∧
    jsToString ⟨10 ^ 21, 0⟩ = "1e+21" ∧
    readNumber "1e+21" = some ⟨121, 0⟩ ∧
    ¬ JSNumber.sameValue ⟨121, 0⟩ ⟨10 ^ 21, 0⟩ := by
  refine ⟨by decide, by decide, by decide, by decide⟩

/-- C8 amended: on a clean numeric string s whose parsed value is zero or
lies in the fixed-notation range of Number.prototype.toString (magnitude at
least 10 to the minus 6th and below 10 to the 21st, encoded on the decimal
representation as integer inequalities), read(read(s).toString()) is a
number equal (JavaScript ==) to read(s). Outside that range toString uses
exponential notation and the equation fails. -/
theorem read_toString_read_roundtrip (s : String) (d : JSNumber)
    (hclean : stripNonNumeric s.toList = s.toList)
    (hread : readNumber s = some d)
    (hrange : d.num = 0 ∨
      (10 ^ d.exp ≤ d.num.natAbs * 10 ^ 6 ∧
        d.num.natAbs < 10 ^ (21 + d.exp))) :
    ∃ d' : JSNumber, readNumber (jsToString d) = some d' ∧ d'.sameValue d := by
  rcases hrange with h0 | ⟨hlo, hhi⟩
  · refine ⟨⟨0, 0⟩, ?_, ?_⟩
    · rw [jsToString, if_pos h0]
      decide
    · show (0 : ℤ) * 10 ^ d.exp = d.num * 10 ^ (0 : ℕ)
      rw [h0]
      ring
  · have hd0 : d.num ≠ 0 := by
      intro h0
      have hpow : 0 < 10 ^ d.exp := pow_pos (by norm_num) _
      rw [h0] at hlo
      simp only [Int.natAbs_zero, Nat.zero_mul] at hlo
      omega
    exact readNumber_jsToString d hd0 hlo hhi

/-- C8 witness: the clean numeric string "1.5" round-trips. -/
theorem read_toString_read_roundtrip_witness :
    ∃ d' : JSNumber, readNumber (jsToString ⟨15, 1⟩) = some d' ∧
      d'.sameValue ⟨15, 1⟩ :=
  read_toString_read_roundtrip "1.5" ⟨15, 1⟩ (by decide) (by decide)
    (Or.inr (by decide))

/-- C9: PAGE_FIELDS is assigned exactly once, by initPage, which stores the
keyBy image of the supplied datasets; loadDataset, the edit handler and the
ready handler leave it unchanged on every execution (they only read it). -/
theorem pageFields_written_once_read_elsewhere (st : SysState)
    (datasets : List Dataset) (k : String) (ds : Dataset) (f : RField) :
    (FieldsHandler.initPage st datasets).pageFields = some (keyBy datasets) ∧
    (FieldsHandler.loadDataset st k).map SysState.pageFields =
      (FieldsHandler.loadDataset st k).map (fun _ => st.pageFields) ∧
    (FieldsHandler._handleFieldEdit ds f st).map SysState.pageFields =
      (FieldsHandler._handleFieldEdit ds f st).map (fun _ => st.pageFields) ∧
    (FieldsHandler.onDatasetReady ds st).map SysState.pageFields =
      (FieldsHandler.onDatasetReady ds st).map (fun _ => st.pageFields) := by
  refine ⟨rfl, ?_, ?_, ?_⟩
  · cases hp : st.pageFields with
    | none => rw [loadDataset_null_registry st k hp]; rfl
    | some pf' =>
      rw [loadDataset_eq_match st pf' k hp]
      cases pf' k with
      | none => rfl
      | some ds' =>
        rw [hp]
        rfl
  · unfold FieldsHandler._handleFieldEdit
    cases st.ui f.interfaceId <;> rfl
  · show (FieldsHandler.loadDataset st ds.id).map _ =
      (FieldsHandler.loadDataset st ds.id).map _
    cases hp : st.pageFields with
    | none => rw [loadDataset_null_registry st ds.id hp]; rfl
    | some pf' =>
      rw [loadDataset_eq_match st pf' ds.id hp]
      cases pf' ds.id with
      | none => rfl
      | some ds' =>
        rw [hp]
        rfl

/-- C10: the base Field class passes every value through unchanged in both
directions: read and format are the identity. -/
theorem base_field_read_format_identity (f : Field) (v : JSVal) :
    f.read v = v ∧ f.format v = v :=
  ⟨rfl, rfl⟩

end WixUtil
